import Mathlib

/-!
# flagsconfig: reconciliation of command-line flags with a persisted file

A shallow embedding of `flagsconfig.go` (package flagsconfig): the `Config`
store with its methods `saveFlags`, `updateFlags`, `Parse`, `Update`, `Get`
and the constructor `NewConfig`, over explicit models of the two
collaborators the package calls: the process-wide flag registry (package
flag) and the JSON key-value persistence (package tojson).

The state of the world is passed explicitly: a `State` holds the store, the
flag registry and the file system.
-/

namespace Flagsconfig

/-! ## Data model -/

/-- An error value. The field notExist is what os.IsNotExist reports on it. -/
structure Error where
  msg : String
  notExist : Bool
deriving DecidableEq, Repr

/-- Modelled from the spec: the type of a flag, seen through its setter (the
interface flag.Value). The text set v is what String returns after Set(v),
whether Set reported an error or not, and accepts v tells whether Set(v)
reports no error. As for the flag types of package flag, what a Set leaves
depends on the string given alone, and a Set of what String returns leaves
it unchanged. -/
structure Kind where
  set : String → String
  accepts : String → Bool
  idem : ∀ v, set (set v) = set v

/-- The type of a string flag (flag.String, flag.StringVar): Set stores the
string as given and never fails. -/
def Kind.string : Kind := ⟨fun v => v, fun _ => true, fun _ => rfl⟩

/-- The strings strconv.ParseBool reads as true. -/
def trueTexts : List String := ["1", "t", "T", "TRUE", "true", "True"]

/-- The strings strconv.ParseBool reads as false. -/
def falseTexts : List String := ["0", "f", "F", "FALSE", "false", "False"]

/-- The type of a boolean flag (flag.Bool): Set stores what
strconv.ParseBool returns, false when it fails, and String renders it as
true or false. -/
def Kind.bool : Kind :=
  ⟨fun v => if v ∈ trueTexts then "true" else "false",
   fun v => decide (v ∈ trueTexts) || decide (v ∈ falseTexts),
   fun v => by
    show (if (if v ∈ trueTexts then "true" else "false") ∈ trueTexts then "true" else "false")
      = (if v ∈ trueTexts then "true" else "false")
    by_cases h : v ∈ trueTexts
    · rw [if_pos h]
      exact if_pos (by decide)
    · rw [if_neg h]
      exact if_neg (by decide)⟩

/-- Modelled from the spec: a flag of the flag registry, with its name, its
type, its current string value (what flag.Value.String returns) and whether
it was explicitly supplied on this invocation (membership in the set that
flag.Visit walks). The current value is a rendering of the typed value:
setting it again leaves it unchanged. -/
structure Flag where
  name : String
  kind : Kind
  value : String
  actual : Bool
  canon : kind.set value = value

/-- A string flag, as flag.String defines it. -/
def stringFlag (name value : String) (actual : Bool) : Flag :=
  ⟨name, Kind.string, value, actual, rfl⟩

/-- A boolean flag, as flag.Bool defines it. -/
def boolFlag (name : String) (b : Bool) (actual : Bool) : Flag :=
  ⟨name, Kind.bool, if b then "true" else "false", actual, by cases b <;> rfl⟩

/-- A Go map from string to string: the field flags of Config and the
content of a persisted file. -/
abbrev Values := String → Option String

/-- The result of make(map[string]string). -/
def Values.empty : Values := fun _ => none

/-- The assignment m[k] = v. -/
def Values.set (m : Values) (k v : String) : Values :=
  fun x => if x = k then some v else m x

/-- The statement delete(m, k). -/
def Values.delete (m : Values) (k : String) : Values :=
  fun x => if x = k then none else m x

/-- Decoding the entries of d into the map m: entries of d are written over m. -/
def Values.overlay (d m : Values) : Values :=
  fun x => match d x with
    | some v => some v
    | none => m x

/-- What is found at a path: nothing, a JSON object of string values, or
something that cannot be loaded (the load then fails with an error other
than file-does-not-exist, after having decoded the entries left). -/
inductive File where
  | absent
  | json (m : Values)
  | unreadable (left : Values) (msg : String)

/-- The file system: what is found at each path, and the error a Save at a
path fails with, if it fails. -/
structure FS where
  file : String → File
  saveErr : String → Option Error

/-- The struct Config: path, flags map and filter set. -/
structure Config where
  path : String
  flags : Values
  filter : Finset String

/-- The store together with the two collaborators it acts on: the flag
registry, in the order VisitAll walks it, and the file system. -/
structure State where
  c : Config
  reg : List Flag
  fs : FS

/-! ## Collaborators -/

/-- Modelled from the spec: Load(path, &mapping) of the key-value
persistence. It fails distinguishably when the file is absent, leaving the
mapping as it was; it fails with another error on a file it cannot decode. -/
def Load (fs : FS) (path : String) (m : Values) : Values × Option Error :=
  match fs.file path with
  | File.absent => (m, some ⟨"open " ++ path ++ ": no such file or directory", true⟩)
  | File.json d => (Values.overlay d m, none)
  | File.unreadable left msg => (Values.overlay left m, some ⟨msg, false⟩)

/-- Modelled from the spec: Save(path, &mapping) of the key-value
persistence. On success the file at path holds the mapping; on failure the
file system is left as it was. -/
def Save (fs : FS) (path : String) (m : Values) : FS × Option Error :=
  match fs.saveErr path with
  | some e => (fs, some e)
  | none => ({ fs with file := fun p => if p = path then File.json m else fs.file p }, none)

/-- The call fmt.Errorf("failed to load the config file: %v", err): a new
error carrying the message of err after the context. -/
def Errorf (err : Error) : Error :=
  ⟨"failed to load the config file: " ++ err.msg, false⟩

/-- Modelled from the spec: Lookup(name) of the flag registry. -/
def Lookup (reg : List Flag) (name : String) : Option Flag :=
  reg.find? (fun f => f.name = name)

/-- The current value of the flag of a given name, if it is registered. -/
def valueOf (reg : List Flag) (name : String) : Option String :=
  (Lookup reg name).map (fun f => f.value)

/-- Modelled from the spec: one command-line assignment name=value handled
by ParseArguments. The flag is set to the value and counts as explicitly
supplied; an undefined name, or a value the setter of the flag reports an
error on, ends the process (none). -/
def flagSet (reg : List Flag) (name value : String) : Option (List Flag) :=
  match Lookup reg name with
  | none => none
  | some g =>
    if g.kind.accepts value then
      some (reg.map (fun f =>
        if f.name = name then
          { f with value := f.kind.set value, actual := true, canon := f.kind.idem value }
        else f))
    else none

/-- Modelled from the spec: ParseArguments, over the assignments of the
argument list in order. -/
def flagParse (reg : List Flag) : List (String × String) → Option (List Flag)
  | [] => some reg
  | (n, v) :: rest =>
    match flagSet reg n v with
    | none => none
    | some reg1 => flagParse reg1 rest

/-! ## The store -/

/-- The body of the VisitAll loop of saveFlags, run over the registry: every
flag not in the filter writes its current value into the map. -/
def collect (filter : Finset String) (reg : List Flag) (m : Values) : Values :=
  reg.foldl (fun acc f => if f.name ∈ filter then acc else acc.set f.name f.value) m

/-- The method saveFlags. -/
def saveFlags (s : State) : Option Error × State :=
  let flags := collect s.c.filter s.reg s.c.flags
  if s.c.path ≠ "" then
    let r := Save s.fs s.c.path flags
    (r.2, { s with c := { s.c with flags := flags }, fs := r.1 })
  else
    (none, { s with c := { s.c with flags := flags } })

/-- The flag.Visit loop of updateFlags: every explicitly supplied flag that
has an entry in the map has it deleted. -/
def dropVisited (reg : List Flag) (m : Values) : Values :=
  (reg.filter (fun f => f.actual)).foldl
    (fun acc f => if (acc f.name).isSome then acc.delete f.name else acc) m

/-- The body of the flag.VisitAll loop of updateFlags: on a flag that has an
entry in the map, flag.Value.Set is called with the value of the entry, and
the error it returns is dropped. The flag ends at what its setter makes of
the value. -/
def applyValue (m : Values) (f : Flag) : Flag :=
  match m f.name with
  | some val => { f with value := f.kind.set val, canon := f.kind.idem val }
  | none => f

/-- The flag.VisitAll loop of updateFlags, run over the registry. -/
def applyValues (m : Values) (reg : List Flag) : List Flag :=
  reg.map (applyValue m)

/-- The method updateFlags. -/
def updateFlags (s : State) (path : String) : Option Error × State :=
  let r := if path ≠ "" then Load s.fs path Values.empty else (Values.empty, none)
  match r.2 with
  | some err => (some err, { s with c := { s.c with path := path, flags := r.1 } })
  | none =>
    let flags := dropVisited s.reg r.1
    (none, { s with c := { s.c with path := path, flags := flags },
                    reg := applyValues flags s.reg })

/-- The method Parse. -/
def Parse (s : State) (path : String) : Option Error × State :=
  let r := updateFlags s path
  match r.1 with
  | some err => if !err.notExist then (some (Errorf err), r.2) else saveFlags r.2
  | none => saveFlags r.2

/-- The method Update. -/
def Update (s : State) (key value : String) : Option Error × State :=
  let flags := s.c.flags.set key value
  if s.c.path ≠ "" then
    let r := Save s.fs s.c.path flags
    (r.2, { s with c := { s.c with flags := flags }, fs := r.1 })
  else
    (none, { s with c := { s.c with flags := flags } })

/-- The method Get. -/
def Get (c : Config) (key : String) : String :=
  match c.flags key with
  | some value => value
  | none => ""

/-- The constructor NewConfig, run on a registry, a file system and the
assignments of the argument list. The flag config is defined with default
path unless it is already defined; the arguments are parsed; the filter set
is made of config and the given names; the store is parsed at the value of
the variable configFile, which the flag config is bound to when NewConfig
defined it. The result is none when parsing the arguments ends the process. -/
def NewConfig (reg : List Flag) (fs : FS) (args : List (String × String))
    (path : String) (filter : List String) : Option (Option Error × State) :=
  let defines := (Lookup reg "config").isNone
  let reg1 := if defines then reg ++ [stringFlag "config" path false] else reg
  match flagParse reg1 args with
  | none => none
  | some reg2 =>
    let configFile := if defines then (valueOf reg2 "config").getD path else path
    let c : Config := ⟨"", Values.empty, filter.foldl (fun acc v => insert v acc) {"config"}⟩
    some (Parse ⟨c, reg2, fs⟩ configFile)

/-- The content of the file at a path, when it is a loadable JSON object. -/
def content (fs : FS) (path : String) : Option Values :=
  match fs.file path with
  | File.json m => some m
  | _ => none

/-- Whether the file at a path has an entry for a key. -/
def fileHas (fs : FS) (path key : String) : Bool :=
  match fs.file path with
  | File.json m => (m key).isSome
  | _ => false

/-- The registry is well formed: flag names are unique. -/
def UniqueNames (reg : List Flag) : Prop := (reg.map (fun f => f.name)).Nodup

instance (reg : List Flag) : Decidable (UniqueNames reg) := by
  unfold UniqueNames; infer_instance

/-! ## Concrete scenarios -/

/-- A file system with no file anywhere, where every save succeeds. -/
def emptyFS : FS := ⟨fun _ => File.absent, fun _ => none⟩

/-- A file system with one JSON file, where every save succeeds. -/
def oneFile (path : String) (m : Values) : FS :=
  ⟨fun p => if p = path then File.json m else File.absent, fun _ => none⟩

/-- A store with the given path and filter names and an empty map. -/
def store (path : String) (filter : List String) : Config :=
  ⟨path, Values.empty, insert "config" filter.toFinset⟩

/-- Whether flag.Visit walks a flag of the given name: a flag of that name
was explicitly supplied. -/
def isVisited (reg : List Flag) (k : String) : Bool :=
  reg.any (fun f => f.actual && decide (f.name = k))

/-- The mapping a Parse starts from: the content of the file when the path
is not empty and the file is a JSON object, the empty mapping otherwise. -/
def prior (fs : FS) (path : String) : Values :=
  if path = "" then Values.empty else
    match fs.file path with
    | File.json d => d
    | _ => Values.empty

/-- The entries a Parse keeps from the mapping it starts from: those that
are not the name of an explicitly supplied flag. -/
def kept (s : State) (path : String) : Values :=
  dropVisited s.reg (prior s.fs path)

/-- The registry after the reload phase of a Parse that loads. -/
def reloadedReg (s : State) (path : String) : List Flag :=
  applyValues (kept s path) s.reg

/-- The values mapping after a Parse that loads. -/
def parsedFlags (s : State) (path : String) : Values :=
  collect s.c.filter (reloadedReg s path) (kept s path)

/-- The file system after a successful save of a mapping at a path. -/
def written (fs : FS) (path : String) (m : Values) : FS :=
  { fs with file := fun p => if p = path then File.json m else fs.file p }

/-- Scenario: the flag token is filtered and explicitly supplied with value
new, while the file app.json maps it to old. -/
def tokenState : State :=
  ⟨store "" ["token"], [stringFlag "token" "new" true], oneFile "app.json" (Values.empty.set "token" "old")⟩

/-- Scenario: the flag mode, default fast, not supplied on this invocation,
and the file app.json that maps it to slow. -/
def modeState : State :=
  ⟨store "" [], [stringFlag "mode" "fast" false], oneFile "app.json" (Values.empty.set "mode" "slow")⟩

/-- A call on the store: Parse(path) or Update(key, value). -/
inductive Op where
  | parse (path : String)
  | update (key value : String)

/-- One call on the store. -/
def step (s : State) : Op → Option Error × State
  | Op.parse path => Parse s path
  | Op.update key value => Update s key value

/-- A sequence of calls on the store, each of which returns no error; none
when one of them returns an error. -/
def run (s : State) : List Op → Option State
  | [] => some s
  | op :: ops =>
    match (step s op).1 with
    | none => run (step s op).2 ops
    | some _ => none

/-- The store holds no entry, and no file holds a key, that is in the
filter set of the store. -/
def Clean (s : State) : Prop :=
  (∀ k, k ∈ s.c.filter → s.c.flags k = none) ∧
  (∀ p k, k ∈ s.c.filter → fileHas s.fs p k = false)

/-- Scenario of the package test on filtered flags: the flags flag-test2 and
flag-test3 at their defaults, no file, and no argument. -/
def testReg : List Flag := [stringFlag "flag-test2" "" false, stringFlag "flag-test3" "" false]

/-- Scenario of the package test on filtered flags: what NewConfig returns
at test.config with the filtered name flag-test3. It defines the flag config,
whose value is the path parsed. -/
def testNew : Option Error × State :=
  Parse ⟨⟨"", Values.empty, ["flag-test3"].foldl (fun acc v => insert v acc) {"config"}⟩,
      testReg ++ [stringFlag "config" "test.config" false], emptyFS⟩
    ((valueOf (testReg ++ [stringFlag "config" "test.config" false]) "config").getD "test.config")

/-- Scenario of the package test on filtered flags, continued: the state
after Update(flag-test2, test2) and Parse(test.config). -/
def testFinal : State :=
  (Parse (Update testNew.2 "flag-test2" "test2").2 "test.config").2

/-- Scenario: a file test.config that already holds an entry for the flag
flag-test3. -/
def staleFS : FS := oneFile "test.config" (Values.empty.set "flag-test3" "kept")

/-- Scenario: the flag mode, not supplied on this invocation, and the file
app.json with an entry for mode and an entry legacy that names no flag. -/
def legacyState : State :=
  ⟨store "" [], [stringFlag "mode" "fast" false],
    oneFile "app.json" ((Values.empty.set "mode" "slow").set "legacy" "1")⟩

/-- Scenario of the package test: the flag flag-test at its default, no
file, and a store with the filter set of NewConfig. -/
def freshState : State :=
  ⟨store "" [], [stringFlag "flag-test" "" false, stringFlag "config" "test.config" false], emptyFS⟩

/-- A sequence of calls on the store, each made whatever the one before it
returned. -/
def runAll (s : State) (ops : List Op) : State :=
  ops.foldl (fun acc op => (step acc op).2) s

/-- A file system whose file at the given path cannot be decoded: the load
fails with the given message and decodes nothing. Every save succeeds. -/
def brokenFS (path msg : String) : FS :=
  ⟨fun p => if p = path then File.unreadable Values.empty msg else File.absent, fun _ => none⟩

/-- Scenario: what NewConfig returns at app.json with the filtered name
flag-test3, when app.json cannot be decoded. -/
def brokenNew : Option Error × State :=
  Parse ⟨⟨"", Values.empty, ["flag-test3"].foldl (fun acc v => insert v acc) {"config"}⟩,
      testReg ++ [stringFlag "config" "app.json" false], brokenFS "app.json" "bad"⟩
    ((valueOf (testReg ++ [stringFlag "config" "app.json" false]) "config").getD "app.json")

/-- Scenario: a store that holds an entry from an earlier Parse at old.json,
and the file app.json that cannot be decoded. -/
def brokenState : State :=
  ⟨⟨"old.json", Values.empty.set "mode" "slow", {"config"}⟩, [stringFlag "mode" "fast" false],
    brokenFS "app.json" "unexpected end of JSON input"⟩

/-- Scenario: the flag token is filtered and not supplied on this
invocation, while the file app.json maps it to old; the flag mode is not
filtered and has no entry in the file. -/
def quietTokenState : State :=
  ⟨store "" ["token"], [stringFlag "token" "" false, stringFlag "mode" "fast" false],
    oneFile "app.json" (Values.empty.set "token" "old")⟩

/-- Scenario: the boolean flag verbose, default false, not supplied on this
invocation, and the file app.json that maps it to 1. -/
def verboseState : State :=
  ⟨store "" [], [boolFlag "verbose" false false],
    oneFile "app.json" (Values.empty.set "verbose" "1")⟩

/-- Scenario: the boolean flag verbose, default false, not supplied and
filtered, and the file app.json that maps it to 1. -/
def quietVerboseState : State :=
  ⟨store "" ["verbose"], [boolFlag "verbose" false false],
    oneFile "app.json" (Values.empty.set "verbose" "1")⟩

/-- Scenario: the flag level is explicitly supplied with 3 and the flag mode
is not supplied; the file app.json has an entry for each. The flag name is
registered and has no entry. -/
def frameState : State :=
  ⟨store "" [], [stringFlag "level" "3" true, stringFlag "mode" "fast" false, stringFlag "name" "x" false],
    oneFile "app.json" ((Values.empty.set "mode" "slow").set "level" "9")⟩

/-! ## Lemmas on maps and on the registry -/

theorem overlay_empty (d : Values) : Values.overlay d Values.empty = d := by
  funext x
  unfold Values.overlay Values.empty
  cases d x <;> rfl

theorem Lookup_cons (f : Flag) (reg : List Flag) (k : String) :
    Lookup (f :: reg) k = if f.name = k then some f else Lookup reg k := by
  unfold Lookup
  by_cases h : f.name = k <;> simp [List.find?_cons, h]

theorem Lookup_name {reg : List Flag} {k : String} {f : Flag}
    (h : Lookup reg k = some f) : f.name = k := by
  unfold Lookup at h
  have := List.find?_some h
  simpa using this

theorem Lookup_mem {reg : List Flag} {k : String} {f : Flag}
    (h : Lookup reg k = some f) : f ∈ reg := by
  unfold Lookup at h
  exact List.mem_of_find?_eq_some h

theorem Lookup_none_iff (reg : List Flag) (k : String) :
    Lookup reg k = none ↔ ∀ f ∈ reg, f.name ≠ k := by
  unfold Lookup
  simp [List.find?_eq_none]

theorem Lookup_of_mem {reg : List Flag} (hu : UniqueNames reg) {f : Flag}
    (hf : f ∈ reg) : Lookup reg f.name = some f := by
  induction reg with
  | nil => cases hf
  | cons g reg ih =>
    unfold UniqueNames at hu ih
    rw [List.map_cons, List.nodup_cons] at hu
    rw [Lookup_cons]
    rcases List.mem_cons.mp hf with h | h
    · subst h; simp
    · have hne : g.name ≠ f.name := by
        intro e
        exact hu.1 (e ▸ List.mem_map_of_mem (fun f => f.name) h)
      rw [if_neg hne]
      exact ih hu.2 h

/-! ## Lemmas on the loops -/

theorem collect_cons (F : Finset String) (f : Flag) (reg : List Flag) (m : Values) :
    collect F (f :: reg) m
      = collect F reg (if f.name ∈ F then m else m.set f.name f.value) := by
  simp [collect, List.foldl_cons]

theorem collect_filtered (F : Finset String) (reg : List Flag) (m : Values) (k : String)
    (hk : k ∈ F) : collect F reg m k = m k := by
  induction reg generalizing m with
  | nil => rfl
  | cons f reg ih =>
    rw [collect_cons, ih]
    by_cases hf : f.name ∈ F
    · rw [if_pos hf]
    · rw [if_neg hf]
      have : k ≠ f.name := fun e => hf (e ▸ hk)
      simp [Values.set, this]

theorem collect_unregistered (F : Finset String) (reg : List Flag) (m : Values) (k : String)
    (hk : Lookup reg k = none) : collect F reg m k = m k := by
  induction reg generalizing m with
  | nil => rfl
  | cons f reg ih =>
    rw [Lookup_cons] at hk
    by_cases hfk : f.name = k
    · simp [hfk] at hk
    · rw [if_neg hfk] at hk
      rw [collect_cons, ih _ hk]
      by_cases hf : f.name ∈ F
      · rw [if_pos hf]
      · rw [if_neg hf]
        have : k ≠ f.name := fun e => hfk e.symm
        simp [Values.set, this]

theorem collect_registered (F : Finset String) (reg : List Flag) (m : Values) (k : String)
    (f : Flag) (hu : UniqueNames reg) (hk : k ∉ F) (hf : Lookup reg k = some f) :
    collect F reg m k = some f.value := by
  induction reg generalizing m with
  | nil => simp [Lookup] at hf
  | cons g reg ih =>
    unfold UniqueNames at hu ih
    rw [List.map_cons, List.nodup_cons] at hu
    rw [Lookup_cons] at hf
    rw [collect_cons]
    by_cases hgk : g.name = k
    · rw [if_pos hgk] at hf
      have hfg : g = f := Option.some.inj hf
      have hnone : Lookup reg k = none := by
        rw [Lookup_none_iff]
        intro x hx e
        exact hu.1 (hgk ▸ e ▸ List.mem_map_of_mem (fun f => f.name) hx)
      rw [collect_unregistered F reg _ k hnone]
      have hg : g.name ∉ F := hgk ▸ hk
      rw [if_neg hg, ← hfg]
      simp [Values.set, hgk]
    · rw [if_neg hgk] at hf
      exact ih _ hu.2 hf

theorem dropVisited_apply (reg : List Flag) (m : Values) (k : String) :
    dropVisited reg m k = if isVisited reg k then none else m k := by
  induction reg generalizing m with
  | nil => simp [dropVisited, isVisited]
  | cons f reg ih =>
    unfold dropVisited at ih ⊢
    unfold isVisited at ih ⊢
    by_cases hf : f.actual = true
    · rw [List.filter_cons_of_pos (by simpa using hf), List.foldl_cons, ih]
      by_cases hk : f.name = k
      · subst hk
        by_cases hs : (m f.name).isSome = true
        · simp [hf, hs, Values.delete]
        · have hn : m f.name = none := by
            cases hm : m f.name with
            | none => rfl
            | some v => simp [hm] at hs
          simp [hf, hn]
      · have hk2 : k ≠ f.name := fun e => hk e.symm
        by_cases hs : (m f.name).isSome = true
        · simp [hf, hk, hs, Values.delete, hk2]
        · simp [hf, hk, hs]
    · rw [List.filter_cons_of_neg (by simpa using hf), ih]
      simp [hf]

theorem dropVisited_empty (reg : List Flag) : dropVisited reg Values.empty = Values.empty := by
  funext k
  rw [dropVisited_apply]
  simp [Values.empty]

theorem applyValue_name (m : Values) (f : Flag) : (applyValue m f).name = f.name := by
  unfold applyValue
  cases m f.name <;> rfl

theorem applyValue_actual (m : Values) (f : Flag) : (applyValue m f).actual = f.actual := by
  unfold applyValue
  cases m f.name <;> rfl

theorem applyValue_kind (m : Values) (f : Flag) : (applyValue m f).kind = f.kind := by
  unfold applyValue
  cases m f.name <;> rfl

theorem applyValue_value (m : Values) (f : Flag) :
    (applyValue m f).value = ((m f.name).map f.kind.set).getD f.value := by
  unfold applyValue
  cases m f.name <;> rfl

theorem applyValues_empty (reg : List Flag) : applyValues Values.empty reg = reg := by
  unfold applyValues
  have : applyValue Values.empty = id := by
    funext f
    rfl
  rw [this, List.map_id]

theorem applyValues_names (m : Values) (reg : List Flag) :
    (applyValues m reg).map (fun f => f.name) = reg.map (fun f => f.name) := by
  unfold applyValues
  rw [List.map_map]
  apply List.map_congr_left
  intro f _
  simp only [Function.comp, applyValue_name]

theorem applyValues_unique (m : Values) (reg : List Flag) (hu : UniqueNames reg) :
    UniqueNames (applyValues m reg) := by
  unfold UniqueNames at hu ⊢
  rw [applyValues_names]
  exact hu

theorem isVisited_applyValues (m : Values) (reg : List Flag) (k : String) :
    isVisited (applyValues m reg) k = isVisited reg k := by
  unfold isVisited applyValues
  rw [List.any_map]
  congr 1
  funext f
  simp only [Function.comp, applyValue_name, applyValue_actual]

theorem Lookup_applyValues (m : Values) (reg : List Flag) (k : String) :
    Lookup (applyValues m reg) k = (Lookup reg k).map (applyValue m) := by
  induction reg with
  | nil => rfl
  | cons f reg ih =>
    have hc : applyValues m (f :: reg) = applyValue m f :: applyValues m reg := rfl
    rw [hc, Lookup_cons, Lookup_cons, ih, applyValue_name]
    by_cases h : f.name = k
    · simp [h]
    · simp [h]

theorem valueOf_applyValues (m : Values) (reg : List Flag) (k : String) :
    valueOf (applyValues m reg) k
      = (Lookup reg k).map (fun f => ((m k).map f.kind.set).getD f.value) := by
  unfold valueOf
  rw [Lookup_applyValues]
  cases h : Lookup reg k with
  | none => rfl
  | some f =>
    have hn := Lookup_name h
    simp only [Option.map_some', applyValue_value]
    rw [hn]

/-! ## The shape of a Parse -/

theorem Parse_empty (s : State) :
    Parse s "" = (none, ⟨⟨"", parsedFlags s "", s.c.filter⟩, s.reg, s.fs⟩) := by
  simp [Parse, updateFlags, saveFlags, parsedFlags, reloadedReg, kept, prior,
    dropVisited_empty, applyValues_empty]

theorem Parse_absent (s : State) (path : String) (hp : path ≠ "")
    (hf : s.fs.file path = File.absent) :
    Parse s path = saveFlags ⟨⟨path, kept s path, s.c.filter⟩, reloadedReg s path, s.fs⟩ := by
  simp [Parse, updateFlags, Load, hf, hp, reloadedReg, kept, prior,
    dropVisited_empty, applyValues_empty]

theorem Parse_json (s : State) (path : String) (d : Values) (hp : path ≠ "")
    (hf : s.fs.file path = File.json d) :
    Parse s path = saveFlags ⟨⟨path, kept s path, s.c.filter⟩, reloadedReg s path, s.fs⟩ := by
  simp [Parse, updateFlags, Load, hf, hp, reloadedReg, kept, prior, overlay_empty]

theorem Parse_unreadable (s : State) (path : String) (left : Values) (msg : String)
    (hp : path ≠ "") (hf : s.fs.file path = File.unreadable left msg) :
    Parse s path = (some (Errorf ⟨msg, false⟩), ⟨⟨path, left, s.c.filter⟩, s.reg, s.fs⟩) := by
  simp [Parse, updateFlags, Load, hf, hp, overlay_empty]

theorem saveFlags_path (c : Config) (reg : List Flag) (fs : FS) (hp : c.path ≠ "") :
    saveFlags ⟨c, reg, fs⟩
      = ((Save fs c.path (collect c.filter reg c.flags)).2,
         ⟨⟨c.path, collect c.filter reg c.flags, c.filter⟩, reg,
          (Save fs c.path (collect c.filter reg c.flags)).1⟩) := by
  simp [saveFlags, hp]

theorem Save_ok (fs : FS) (path : String) (m : Values) (h : fs.saveErr path = none) :
    Save fs path m = (written fs path m, none) := by
  simp [Save, h, written]

theorem Save_err (fs : FS) (path : String) (m : Values) (e : Error)
    (h : fs.saveErr path = some e) : Save fs path m = (fs, some e) := by
  simp [Save, h]

/-- The error a Parse returns, by cases on the path, the file and the save. -/
theorem Parse_error (s : State) (path : String) :
    (Parse s path).1 =
      if path = "" then none else
        match s.fs.file path with
        | File.unreadable _ msg => some (Errorf ⟨msg, false⟩)
        | _ => s.fs.saveErr path := by
  by_cases hp : path = ""
  · subst hp
    rw [Parse_empty]
    simp
  · rw [if_neg hp]
    cases hf : s.fs.file path with
    | absent =>
      rw [Parse_absent s path hp hf, saveFlags_path _ _ _ hp]
      cases hs : s.fs.saveErr path with
      | none => simp [Save, hs]
      | some e => simp [Save, hs]
    | json d =>
      rw [Parse_json s path d hp hf, saveFlags_path _ _ _ hp]
      cases hs : s.fs.saveErr path with
      | none => simp [Save, hs]
      | some e => simp [Save, hs]
    | unreadable left msg =>
      rw [Parse_unreadable s path left msg hp hf]

/-- A successful Parse at a non-empty path, as a whole. -/
theorem Parse_ok (s : State) (path : String) (hp : path ≠ "") (h : (Parse s path).1 = none) :
    s.fs.saveErr path = none ∧
    (∀ left msg, s.fs.file path ≠ File.unreadable left msg) ∧
    (Parse s path).2 = ⟨⟨path, parsedFlags s path, s.c.filter⟩, reloadedReg s path,
      written s.fs path (parsedFlags s path)⟩ := by
  have he := Parse_error s path
  rw [h, if_neg hp] at he
  cases hf : s.fs.file path with
  | absent =>
    rw [hf] at he
    refine ⟨he.symm, fun _ _ hc => File.noConfusion hc, ?_⟩
    rw [Parse_absent s path hp hf, saveFlags_path _ _ _ hp, Save_ok _ _ _ he.symm]
    rfl
  | json d =>
    rw [hf] at he
    refine ⟨he.symm, fun _ _ hc => File.noConfusion hc, ?_⟩
    rw [Parse_json s path d hp hf, saveFlags_path _ _ _ hp, Save_ok _ _ _ he.symm]
    rfl
  | unreadable left msg =>
    rw [hf] at he
    cases he

/-! ## What a Parse leaves, key by key -/

theorem isVisited_of_Lookup {reg : List Flag} {k : String} {f : Flag}
    (hf : Lookup reg k = some f) (ha : f.actual = true) : isVisited reg k = true := by
  unfold isVisited
  rw [List.any_eq_true]
  exact ⟨f, Lookup_mem hf, by simp [ha, Lookup_name hf]⟩

theorem isVisited_registered {reg : List Flag} (hu : UniqueNames reg) {k : String} {f : Flag}
    (hf : Lookup reg k = some f) : isVisited reg k = f.actual := by
  cases ha : f.actual with
  | true => exact isVisited_of_Lookup hf ha
  | false =>
    rw [Bool.eq_false_iff]
    intro hv
    unfold isVisited at hv
    rw [List.any_eq_true] at hv
    obtain ⟨g, hg, hgk⟩ := hv
    simp only [Bool.and_eq_true, decide_eq_true_eq] at hgk
    have h1 := Lookup_of_mem hu hg
    rw [hgk.2, hf] at h1
    have : f = g := Option.some.inj h1
    rw [this, hgk.1] at ha
    cases ha

theorem isVisited_unregistered {reg : List Flag} {k : String}
    (hf : Lookup reg k = none) : isVisited reg k = false := by
  rw [Bool.eq_false_iff]
  intro hv
  unfold isVisited at hv
  rw [List.any_eq_true] at hv
  obtain ⟨g, hg, hgk⟩ := hv
  simp only [Bool.and_eq_true, decide_eq_true_eq] at hgk
  exact (Lookup_none_iff reg k).mp hf g hg hgk.2

theorem kept_registered (s : State) (path : String) {k : String} {f : Flag}
    (hu : UniqueNames s.reg) (hf : Lookup s.reg k = some f) :
    kept s path k = if f.actual then none else prior s.fs path k := by
  unfold kept
  rw [dropVisited_apply, isVisited_registered hu hf]

theorem kept_unregistered (s : State) (path : String) {k : String}
    (hf : Lookup s.reg k = none) : kept s path k = prior s.fs path k := by
  unfold kept
  rw [dropVisited_apply, isVisited_unregistered hf]
  rfl

theorem reloaded_Lookup (s : State) (path k : String) :
    Lookup (reloadedReg s path) k = (Lookup s.reg k).map (applyValue (kept s path)) := by
  unfold reloadedReg
  rw [Lookup_applyValues]

theorem reloaded_value (s : State) (path : String) {k : String} {f : Flag}
    (hu : UniqueNames s.reg) (hf : Lookup s.reg k = some f) :
    valueOf (reloadedReg s path) k
      = some (if f.actual then f.value
          else ((prior s.fs path k).map f.kind.set).getD f.value) := by
  unfold reloadedReg
  rw [valueOf_applyValues, hf, Option.map_some', kept_registered s path hu hf]
  cases f.actual <;> rfl

theorem reloaded_unique (s : State) (path : String) (hu : UniqueNames s.reg) :
    UniqueNames (reloadedReg s path) :=
  applyValues_unique _ _ hu

theorem parsedFlags_filtered (s : State) (path : String) {k : String}
    (hk : k ∈ s.c.filter) : parsedFlags s path k = kept s path k := by
  unfold parsedFlags
  exact collect_filtered _ _ _ _ hk

theorem parsedFlags_unregistered (s : State) (path : String) {k : String}
    (hf : Lookup s.reg k = none) : parsedFlags s path k = kept s path k := by
  unfold parsedFlags
  apply collect_unregistered
  rw [reloaded_Lookup, hf]
  rfl

theorem parsedFlags_registered (s : State) (path : String) {k : String} {f : Flag}
    (hu : UniqueNames s.reg) (hf : Lookup s.reg k = some f) (hk : k ∉ s.c.filter) :
    parsedFlags s path k = valueOf (reloadedReg s path) k := by
  unfold parsedFlags
  have hl : Lookup (reloadedReg s path) k = some (applyValue (kept s path) f) := by
    rw [reloaded_Lookup, hf]
    rfl
  rw [collect_registered _ _ _ k _ (reloaded_unique s path hu) hk hl]
  unfold valueOf
  rw [hl]
  rfl

theorem prior_json {fs : FS} {path : String} {d : Values} (hp : path ≠ "")
    (hf : fs.file path = File.json d) : prior fs path = d := by
  simp [prior, hp, hf]

theorem content_written (fs : FS) (path : String) (m : Values) :
    content (written fs path m) path = some m := by
  simp [content, written]

theorem Update_ok (s : State) (k v : String) (hp : s.c.path ≠ "")
    (h : (Update s k v).1 = none) :
    (Update s k v).2 = ⟨⟨s.c.path, s.c.flags.set k v, s.c.filter⟩, s.reg,
      written s.fs s.c.path (s.c.flags.set k v)⟩ := by
  unfold Update at h ⊢
  rw [if_pos hp] at h ⊢
  cases hs : s.fs.saveErr s.c.path with
  | none => simp [Save, hs, written]
  | some e => simp [Save, hs] at h

/-- A successful Parse sets a registered flag that was not explicitly
supplied and has an entry in the file: the flag ends at what its setter
makes of the entry, and the map holds that value when the flag is not
filtered and the entry as it was when the flag is filtered. -/
theorem Parse_applies_entry (s : State) (path F V : String) (d : Values) (f : Flag)
    (hu : UniqueNames s.reg) (hp : path ≠ "")
    (hfile : s.fs.file path = File.json d) (hV : d F = some V)
    (hF : Lookup s.reg F = some f) (hact : f.actual = false)
    (hok : (Parse s path).1 = none) :
    valueOf (Parse s path).2.reg F = some (f.kind.set V) ∧
    (Parse s path).2.c.flags F = some (if F ∈ s.c.filter then V else f.kind.set V) := by
  obtain ⟨_, _, hst⟩ := Parse_ok s path hp hok
  have hval : valueOf (reloadedReg s path) F = some (f.kind.set V) := by
    rw [reloaded_value s path hu hF, hact, prior_json hp hfile, hV]
    rfl
  rw [hst]
  refine ⟨hval, ?_⟩
  show parsedFlags s path F = _
  by_cases hk : F ∈ s.c.filter
  · rw [if_pos hk, parsedFlags_filtered s path hk, kept_registered s path hu hF, hact,
      prior_json hp hfile, hV]
    rfl
  · rw [if_neg hk, parsedFlags_registered s path hu hF hk, hval]

theorem Get_of_entry {c : Config} {k v : String} (h : c.flags k = some v) : Get c k = v := by
  simp [Get, h]

theorem mem_newFilter (N : List String) (F0 : Finset String) (k : String) :
    k ∈ N.foldl (fun acc v => insert v acc) F0 ↔ k ∈ F0 ∨ k ∈ N := by
  induction N generalizing F0 with
  | nil => simp
  | cons v N ih =>
    rw [List.foldl_cons, ih, Finset.mem_insert, List.mem_cons]
    tauto

theorem Parse_filter (s : State) (path : String) : (Parse s path).2.c.filter = s.c.filter := by
  by_cases hp : path = ""
  · subst hp
    rw [Parse_empty]
  · cases hf : s.fs.file path with
    | absent => rw [Parse_absent s path hp hf, saveFlags_path _ _ _ hp]
    | json d => rw [Parse_json s path d hp hf, saveFlags_path _ _ _ hp]
    | unreadable left msg => rw [Parse_unreadable s path left msg hp hf]

theorem Update_filter (s : State) (k v : String) : (Update s k v).2.c.filter = s.c.filter := by
  unfold Update
  by_cases hp : s.c.path = "" <;> simp [hp]

theorem prior_clean (fs : FS) (path k : String) (h : fileHas fs path k = false) :
    prior fs path k = none := by
  unfold prior
  by_cases hp : path = ""
  · rw [if_pos hp]
    rfl
  · rw [if_neg hp]
    unfold fileHas at h
    cases hf : fs.file path with
    | absent => rfl
    | json d =>
      rw [hf] at h
      simpa using h
    | unreadable left msg => rfl

theorem kept_clean (s : State) (path k : String) (h : prior s.fs path k = none) :
    kept s path k = none := by
  unfold kept
  rw [dropVisited_apply, h]
  simp

theorem fileHas_written (fs : FS) (path : String) (m : Values) (p k : String) :
    fileHas (written fs path m) p k = if p = path then (m k).isSome else fileHas fs p k := by
  unfold fileHas written
  by_cases h : p = path <;> simp [h]

theorem Clean_Parse (s : State) (path : String) (hc : Clean s) (hok : (Parse s path).1 = none) :
    Clean (Parse s path).2 := by
  have hflags : ∀ k, k ∈ s.c.filter → parsedFlags s path k = none := by
    intro k hk
    rw [parsedFlags_filtered s path hk]
    exact kept_clean s path k (prior_clean _ _ _ (hc.2 path k hk))
  by_cases hp : path = ""
  · subst hp
    rw [Parse_empty]
    exact ⟨hflags, hc.2⟩
  · obtain ⟨_, _, hst⟩ := Parse_ok s path hp hok
    rw [hst]
    refine ⟨hflags, ?_⟩
    intro p k hk
    rw [fileHas_written]
    by_cases h : p = path
    · rw [if_pos h, hflags k hk]
      rfl
    · rw [if_neg h]
      exact hc.2 p k hk

theorem Clean_Update (s : State) (key value : String) (hc : Clean s)
    (hkey : key ∉ s.c.filter) (hok : (Update s key value).1 = none) :
    Clean (Update s key value).2 := by
  have hflags : ∀ k, k ∈ s.c.filter → (s.c.flags.set key value) k = none := by
    intro k hk
    have hne : k ≠ key := fun e => hkey (e ▸ hk)
    simp [Values.set, hne, hc.1 k hk]
  by_cases hp : s.c.path = ""
  · have hst : (Update s key value).2 = ⟨⟨s.c.path, s.c.flags.set key value, s.c.filter⟩,
        s.reg, s.fs⟩ := by
      simp [Update, hp]
    rw [hst]
    exact ⟨hflags, hc.2⟩
  · rw [Update_ok s key value hp hok]
    refine ⟨hflags, ?_⟩
    intro p k hk
    rw [fileHas_written]
    by_cases h : p = s.c.path
    · rw [if_pos h, hflags k hk]
      rfl
    · rw [if_neg h]
      exact hc.2 p k hk

theorem Clean_run (ops : List Op) (s t : State) (hc : Clean s)
    (hops : ∀ key value, Op.update key value ∈ ops → key ∉ s.c.filter)
    (hrun : run s ops = some t) : Clean t ∧ t.c.filter = s.c.filter := by
  induction ops generalizing s with
  | nil =>
    simp only [run, Option.some.injEq] at hrun
    subst hrun
    exact ⟨hc, rfl⟩
  | cons op ops ih =>
    unfold run at hrun
    cases hstep : (step s op).1 with
    | some e => simp [hstep] at hrun
    | none =>
      rw [hstep] at hrun
      have hfil : (step s op).2.c.filter = s.c.filter := by
        cases op with
        | parse path => exact Parse_filter s path
        | update key value => exact Update_filter s key value
      have hcs : Clean (step s op).2 := by
        cases op with
        | parse path => exact Clean_Parse s path hc hstep
        | update key value =>
          exact Clean_Update s key value hc (hops key value (List.mem_cons_self _ _)) hstep
      have hops2 : ∀ key value, Op.update key value ∈ ops → key ∉ (step s op).2.c.filter := by
        intro key value hm
        rw [hfil]
        exact hops key value (List.mem_cons_of_mem _ hm)
      obtain ⟨h1, h2⟩ := ih (step s op).2 hcs hops2 hrun
      exact ⟨h1, h2.trans hfil⟩

theorem NewConfig_some {reg : List Flag} {fs : FS} {args : List (String × String)}
    {path : String} {N : List String} {r : Option Error × State}
    (h : NewConfig reg fs args path N = some r) :
    ∃ reg2 p, r = Parse ⟨⟨"", Values.empty, N.foldl (fun acc v => insert v acc) {"config"}⟩,
      reg2, fs⟩ p := by
  unfold NewConfig at h
  simp only at h
  split at h
  · cases h
  · rename_i reg2 _
    exact ⟨reg2, _, (Option.some.inj h).symm⟩

theorem NewConfig_defines {reg reg2 : List Flag} {fs : FS} {args : List (String × String)}
    {path : String} {N : List String} (hl : Lookup reg "config" = none)
    (hp : flagParse (reg ++ [stringFlag "config" path false]) args = some reg2) :
    NewConfig reg fs args path N
      = some (Parse ⟨⟨"", Values.empty, N.foldl (fun acc v => insert v acc) {"config"}⟩,
          reg2, fs⟩ ((valueOf reg2 "config").getD path)) := by
  unfold NewConfig
  simp only [hl, Option.isNone_none, if_true, hp]

theorem prior_absent {fs : FS} {path : String} (hf : fs.file path = File.absent) :
    prior fs path = Values.empty := by
  unfold prior
  by_cases hp : path = ""
  · rw [if_pos hp]
  · rw [if_neg hp, hf]

theorem reloaded_absent (s : State) (path : String) (hf : s.fs.file path = File.absent) :
    kept s path = Values.empty ∧ reloadedReg s path = s.reg := by
  have hk : kept s path = Values.empty := by
    unfold kept
    rw [prior_absent hf, dropVisited_empty]
  refine ⟨hk, ?_⟩
  unfold reloadedReg
  rw [hk, applyValues_empty]

theorem reloaded_empty (s : State) : kept s "" = Values.empty ∧ reloadedReg s "" = s.reg := by
  have hk : kept s "" = Values.empty := by
    unfold kept
    have : prior s.fs "" = Values.empty := by simp [prior]
    rw [this, dropVisited_empty]
  refine ⟨hk, ?_⟩
  unfold reloadedReg
  rw [hk, applyValues_empty]

/-- The store and the registry after a Parse whose load does not fail with
an error other than file-does-not-exist, whether the save succeeds or not. -/
theorem Parse_state (s : State) (path : String)
    (hload : ∀ left msg, s.fs.file path = File.unreadable left msg → path = "") :
    (Parse s path).2.c = ⟨path, parsedFlags s path, s.c.filter⟩ ∧
    (Parse s path).2.reg = reloadedReg s path := by
  by_cases hp : path = ""
  · subst hp
    rw [Parse_empty]
    exact ⟨rfl, (reloaded_empty s).2.symm⟩
  · cases hf : s.fs.file path with
    | absent =>
      rw [Parse_absent s path hp hf, saveFlags_path _ _ _ hp]
      exact ⟨rfl, rfl⟩
    | json d =>
      rw [Parse_json s path d hp hf, saveFlags_path _ _ _ hp]
      exact ⟨rfl, rfl⟩
    | unreadable left msg => exact absurd (hload left msg hf) hp

theorem applyValues_fix (m : Values) (reg : List Flag)
    (h : ∀ g ∈ reg, ∀ v, m g.name = some v → g.kind.set v = g.value) :
    applyValues m reg = reg := by
  unfold applyValues
  conv_rhs => rw [← List.map_id reg]
  apply List.map_congr_left
  intro g hg
  have hg2 := h g hg
  obtain ⟨name, kind, value, actual, canon⟩ := g
  unfold applyValue
  simp only at hg2 ⊢
  cases hm : m name with
  | none => rfl
  | some v =>
    have hv := hg2 v hm
    subst hv
    rfl

/-- After the two phases of a Parse, an entry of the map for the name of a
registered flag is a value that the setter of the flag reads as the current
value of the flag. -/
theorem parsed_agree (s : State) (path : String) (hu : UniqueNames s.reg) :
    ∀ g ∈ reloadedReg s path, ∀ v, parsedFlags s path g.name = some v →
      g.kind.set v = g.value := by
  intro g hg v hv
  have hl := Lookup_of_mem (reloaded_unique s path hu) hg
  have hl2 := hl
  rw [reloaded_Lookup] at hl2
  cases hf : Lookup s.reg g.name with
  | none => simp [hf] at hl2
  | some f =>
    rw [hf, Option.map_some', Option.some.injEq] at hl2
    by_cases hk : g.name ∈ s.c.filter
    · rw [parsedFlags_filtered s path hk] at hv
      have hv2 : kept s path f.name = some v := by
        rw [Lookup_name hf]
        exact hv
      rw [← hl2, applyValue_kind, applyValue_value, hv2]
      rfl
    · rw [parsedFlags_registered s path hu hf hk] at hv
      unfold valueOf at hv
      rw [hl] at hv
      have hvg : g.value = v := Option.some.inj hv
      rw [← hvg]
      exact g.canon

theorem written_written (fs : FS) (path : String) (m : Values) :
    written (written fs path m) path m = written fs path m := by
  unfold written
  congr 1
  funext p
  by_cases h : p = path <;> simp [h]

theorem applyValues_congr (m m2 : Values) (reg : List Flag)
    (h : ∀ f ∈ reg, m f.name = m2 f.name) : applyValues m reg = applyValues m2 reg := by
  unfold applyValues
  apply List.map_congr_left
  intro f hf
  unfold applyValue
  rw [h f hf]

/-- A Parse that returns no error did not meet a file it cannot decode. -/
theorem Parse_ok_loadable (s : State) (path : String) (hok : (Parse s path).1 = none) :
    ∀ left msg, s.fs.file path = File.unreadable left msg → path = "" := by
  intro left msg hf
  by_contra hp
  rw [Parse_unreadable s path left msg hp hf] at hok
  cases hok

theorem prior_content (fs : FS) (path k : String) (hp : path ≠ "") :
    prior fs path k = (content fs path).bind (fun d => d k) := by
  unfold prior content
  rw [if_neg hp]
  cases fs.file path <;> rfl

theorem prior_no_path (fs : FS) : prior fs "" = Values.empty := by
  simp [prior]

theorem step_filter (s : State) (op : Op) : (step s op).2.c.filter = s.c.filter := by
  cases op with
  | parse path => exact Parse_filter s path
  | update key value => exact Update_filter s key value

theorem runAll_filter (ops : List Op) (s : State) : (runAll s ops).c.filter = s.c.filter := by
  induction ops generalizing s with
  | nil => rfl
  | cons op ops ih =>
    have h : runAll s (op :: ops) = runAll (step s op).2 ops := rfl
    rw [h, ih, step_filter]

theorem newFilter_eq (N : List String) :
    N.foldl (fun acc v => insert v acc) ({"config"} : Finset String) = {"config"} ∪ N.toFinset := by
  ext k
  rw [mem_newFilter, Finset.mem_union, List.mem_toFinset]

/-- A load that fails with an error other than file-does-not-exist met a
file it cannot decode, and left in the map what it had decoded. -/
theorem Load_other_error {fs : FS} {path : String} {e : Error}
    (hl : (Load fs path Values.empty).2 = some e) (hne : e.notExist = false) :
    ∃ left, fs.file path = File.unreadable left e.msg ∧
      (Load fs path Values.empty).1 = left ∧ e = ⟨e.msg, false⟩ := by
  unfold Load at hl ⊢
  cases hf : fs.file path with
  | absent =>
    rw [hf] at hl
    have he := Option.some.inj hl
    rw [← he] at hne
    cases hne
  | json d =>
    rw [hf] at hl
    cases hl
  | unreadable left msg =>
    rw [hf] at hl
    have he := Option.some.inj hl
    refine ⟨left, ?_, overlay_empty left, ?_⟩
    · rw [← he]
    · rw [← he]

/-! ## The tests of the package, replayed on the embedding -/

/-- The test TestFlagsConfig: NewConfig at a fresh path creates the file and
leaves flag-test at its default; Update(flag-test, test) succeeds and leaves
the flag at its default; Parse then sets the flag to test. -/
theorem TestFlagsConfig_replayed :
    (NewConfig [stringFlag "flag-test" "" false] emptyFS [] "test.config" []).map
      (fun r =>
        (r.1, fileHas r.2.fs "test.config" "flag-test", fileHas r.2.fs "test.config" "config",
         valueOf r.2.reg "flag-test"))
      = some (none, true, false, some "") ∧
    (NewConfig [stringFlag "flag-test" "" false] emptyFS [] "test.config" []).map
      (fun r =>
        ((Update r.2 "flag-test" "test").1,
         valueOf (Update r.2 "flag-test" "test").2.reg "flag-test"))
      = some (none, some "") ∧
    (NewConfig [stringFlag "flag-test" "" false] emptyFS [] "test.config" []).map
      (fun r =>
        ((Parse (Update r.2 "flag-test" "test").2 "test.config").1,
         valueOf (Parse (Update r.2 "flag-test" "test").2 "test.config").2.reg "flag-test"))
      = some (none, some "test") := by
  decide

/-- The test TestFlagsConfigFiltered: with flag-test3 filtered, after
Update(flag-test2, test2) and Parse the flag flag-test2 is test2 and the flag
flag-test3 is still at its default. -/
theorem TestFlagsConfigFiltered_replayed :
    testNew.1 = none ∧
    valueOf testNew.2.reg "flag-test2" = some "" ∧
    valueOf testNew.2.reg "flag-test3" = some "" ∧
    (Update testNew.2 "flag-test2" "test2").1 = none ∧
    valueOf (Update testNew.2 "flag-test2" "test2").2.reg "flag-test2" = some "" ∧
    (Parse (Update testNew.2 "flag-test2" "test2").2 "test.config").1 = none ∧
    valueOf testFinal.reg "flag-test2" = some "test2" ∧
    valueOf testFinal.reg "flag-test3" = some "" := by
  decide

/-! ## The claims -/

/-- C1, as stated, fails on a filtered flag: the flag token is filtered,
the file maps it to old and the invocation supplies new; Parse succeeds and
the flag is new, yet the file written has no entry for token at all. -/
theorem explicit_wins_filtered_counterexample :
    (Lookup tokenState.reg "token").map (fun f => (f.value, f.actual)) = some ("new", true) ∧
    (content tokenState.fs "app.json").map (fun m => m "token") = some (some "old") ∧
    (Parse tokenState "app.json").1 = none ∧
    valueOf (Parse tokenState "app.json").2.reg "token" = some "new" ∧
    (content (Parse tokenState "app.json").2.fs "app.json").map (fun m => m "token")
      ≠ some (some "new") := by
  decide

/-- C1, amended (explicit-wins): for every registered flag F explicitly
supplied with value V2 and every persisted file that maps F to V1, after a
successful Parse the current value of F is V2, and the file written maps F
to V2 when F is not in the filter set and has no entry for F when it is. -/
theorem explicit_wins (s : State) (path F V1 V2 : String) (d : Values) (f : Flag)
    (hu : UniqueNames s.reg) (hp : path ≠ "")
    (hfile : s.fs.file path = File.json d) (hV1 : d F = some V1)
    (hF : Lookup s.reg F = some f) (hact : f.actual = true) (hV2 : f.value = V2)
    (hok : (Parse s path).1 = none) :
    valueOf (Parse s path).2.reg F = some V2 ∧
    (content (Parse s path).2.fs path).map (fun m => m F)
      = some (if F ∈ s.c.filter then none else some V2) := by
  obtain ⟨_, _, hst⟩ := Parse_ok s path hp hok
  have hval : valueOf (reloadedReg s path) F = some V2 := by
    rw [reloaded_value s path hu hF, hact, ← hV2]
    rfl
  rw [hst]
  refine ⟨hval, ?_⟩
  simp only [content_written, Option.map_some']
  by_cases hk : F ∈ s.c.filter
  · rw [if_pos hk, parsedFlags_filtered s path hk, kept_registered s path hu hF, hact]
    rfl
  · rw [if_neg hk, parsedFlags_registered s path hu hF hk, hval]

/-- Witness of explicit_wins on the scenario of the filtered token. -/
theorem explicit_wins_witness :
    valueOf (Parse tokenState "app.json").2.reg "token" = some "new" ∧
    (content (Parse tokenState "app.json").2.fs "app.json").map (fun m => m "token")
      = some (if "token" ∈ tokenState.c.filter then none else some "new") :=
  explicit_wins tokenState "app.json" "token" "old" "new" (Values.empty.set "token" "old")
    (stringFlag "token" "new" true) (by decide) (by decide) rfl rfl rfl rfl rfl (by decide)

/-- C2, as stated, fails on a typed flag: the boolean flag verbose was not
supplied and the file maps it to 1; Parse succeeds, and the current value of
the flag and Get(verbose) are true, what the setter of a boolean flag makes
of 1, not 1. -/
theorem resurrection_counterexample :
    (Lookup verboseState.reg "verbose").map (fun f => f.actual) = some false ∧
    (content verboseState.fs "app.json").map (fun m => m "verbose") = some (some "1") ∧
    (Parse verboseState "app.json").1 = none ∧
    valueOf (Parse verboseState "app.json").2.reg "verbose" = some "true" ∧
    valueOf (Parse verboseState "app.json").2.reg "verbose" ≠ some "1" ∧
    Get (Parse verboseState "app.json").2.c "verbose" ≠ "1" := by
  decide

/-- C2, amended (resurrection): for every registered flag F not explicitly
supplied and every persisted file that maps F to V, after a successful
Parse the current value of F is what the setter of F makes of V, and
Get(F) returns that current value when F is not in the filter set and V
when it is; whenever the setter stores V as given, as that of a string flag
does, both are V. -/
theorem resurrection (s : State) (path F V : String) (d : Values) (f : Flag)
    (hu : UniqueNames s.reg) (hp : path ≠ "")
    (hfile : s.fs.file path = File.json d) (hV : d F = some V)
    (hF : Lookup s.reg F = some f) (hact : f.actual = false)
    (hok : (Parse s path).1 = none) :
    valueOf (Parse s path).2.reg F = some (f.kind.set V) ∧
    Get (Parse s path).2.c F = (if F ∈ s.c.filter then V else f.kind.set V) ∧
    (f.kind.set V = V →
      valueOf (Parse s path).2.reg F = some V ∧ Get (Parse s path).2.c F = V) := by
  obtain ⟨hval, hmap⟩ := Parse_applies_entry s path F V d f hu hp hfile hV hF hact hok
  have hget := Get_of_entry hmap
  refine ⟨hval, hget, ?_⟩
  intro hs
  rw [hval, hget, hs]
  exact ⟨rfl, by split <;> rfl⟩

/-- Witness of resurrection: the string flag mode, default fast, takes the
value slow of the file. -/
theorem resurrection_witness :
    valueOf (Parse modeState "app.json").2.reg "mode" = some "slow" ∧
    Get (Parse modeState "app.json").2.c "mode"
      = (if "mode" ∈ modeState.c.filter then "slow" else "slow") ∧
    ("slow" = "slow" →
      valueOf (Parse modeState "app.json").2.reg "mode" = some "slow" ∧
      Get (Parse modeState "app.json").2.c "mode" = "slow") :=
  resurrection modeState "app.json" "mode" "slow" (Values.empty.set "mode" "slow")
    (stringFlag "mode" "fast" false) (by decide) (by decide) rfl rfl rfl rfl (by decide)

/-- C3, as stated, fails on a typed flag: after Update(verbose, 1) on a
store at app.json, a store parsed at app.json over the boolean flag verbose
has the flag and Get(verbose) at true, not at 1. -/
theorem round_trip_counterexample :
    (Update ⟨store "app.json" [], [boolFlag "verbose" false false], emptyFS⟩
      "verbose" "1").1 = none ∧
    (Parse ⟨store "" [], [boolFlag "verbose" false false],
      (Update ⟨store "app.json" [], [boolFlag "verbose" false false], emptyFS⟩
        "verbose" "1").2.fs⟩ "app.json").1 = none ∧
    valueOf (Parse ⟨store "" [], [boolFlag "verbose" false false],
      (Update ⟨store "app.json" [], [boolFlag "verbose" false false], emptyFS⟩
        "verbose" "1").2.fs⟩ "app.json").2.reg "verbose" = some "true" ∧
    Get (Parse ⟨store "" [], [boolFlag "verbose" false false],
      (Update ⟨store "app.json" [], [boolFlag "verbose" false false], emptyFS⟩
        "verbose" "1").2.fs⟩ "app.json").2.c "verbose" = "true" := by
  decide

/-- C3, amended (round trip): for a store with non-empty path P and a
successful Update(k, v), every store then parsed at P, over a registry where
the flag k is registered and not explicitly supplied, has after a successful
Parse the current value of the flag k equal to what the setter of k makes of
v, and Get(k) equal to that value when k is not in the filter set and to v
when it is; whenever the setter stores v as given, as that of a string flag
does, both are v. -/
theorem round_trip (s : State) (c2 : Config) (reg2 : List Flag) (k v : String) (f : Flag)
    (hu : UniqueNames reg2) (hp : s.c.path ≠ "")
    (hk : Lookup reg2 k = some f) (hact : f.actual = false)
    (hupd : (Update s k v).1 = none)
    (hparse : (Parse ⟨c2, reg2, (Update s k v).2.fs⟩ s.c.path).1 = none) :
    valueOf (Parse ⟨c2, reg2, (Update s k v).2.fs⟩ s.c.path).2.reg k = some (f.kind.set v) ∧
    Get (Parse ⟨c2, reg2, (Update s k v).2.fs⟩ s.c.path).2.c k
      = (if k ∈ c2.filter then v else f.kind.set v) ∧
    (f.kind.set v = v →
      Get (Parse ⟨c2, reg2, (Update s k v).2.fs⟩ s.c.path).2.c k = v ∧
      valueOf (Parse ⟨c2, reg2, (Update s k v).2.fs⟩ s.c.path).2.reg k = some v) := by
  have hfile : (Update s k v).2.fs.file s.c.path = File.json (s.c.flags.set k v) := by
    rw [Update_ok s k v hp hupd]
    simp [written]
  have hv : (s.c.flags.set k v) k = some v := by simp [Values.set]
  obtain ⟨hval, hmap⟩ := Parse_applies_entry ⟨c2, reg2, (Update s k v).2.fs⟩ s.c.path k v _ f
    hu hp hfile hv hk hact hparse
  have hget := Get_of_entry hmap
  refine ⟨hval, hget, ?_⟩
  intro hs
  rw [hval, hget, hs]
  exact ⟨by split <;> rfl, rfl⟩

/-- Witness of round_trip: the scenario of the package test. The store at
test.config is updated with flag-test = test, and a store parsed at the same
path, with the string flag flag-test at its default, reads test back. -/
theorem round_trip_witness :
    valueOf (Parse ⟨store "" [], [stringFlag "flag-test" "" false],
        (Update ⟨store "test.config" [], [stringFlag "flag-test" "" false], emptyFS⟩
          "flag-test" "test").2.fs⟩ "test.config").2.reg "flag-test" = some "test" ∧
    Get (Parse ⟨store "" [], [stringFlag "flag-test" "" false],
        (Update ⟨store "test.config" [], [stringFlag "flag-test" "" false], emptyFS⟩
          "flag-test" "test").2.fs⟩ "test.config").2.c "flag-test"
      = (if "flag-test" ∈ (store "" []).filter then "test" else "test") ∧
    ("test" = "test" →
      Get (Parse ⟨store "" [], [stringFlag "flag-test" "" false],
        (Update ⟨store "test.config" [], [stringFlag "flag-test" "" false], emptyFS⟩
          "flag-test" "test").2.fs⟩ "test.config").2.c "flag-test" = "test" ∧
      valueOf (Parse ⟨store "" [], [stringFlag "flag-test" "" false],
        (Update ⟨store "test.config" [], [stringFlag "flag-test" "" false], emptyFS⟩
          "flag-test" "test").2.fs⟩ "test.config").2.reg "flag-test" = some "test") :=
  round_trip ⟨store "test.config" [], [stringFlag "flag-test" "" false], emptyFS⟩ (store "" [])
    [stringFlag "flag-test" "" false] "flag-test" "test" (stringFlag "flag-test" "" false)
    (by decide) (by decide) rfl rfl (by decide) (by decide)

/-- C4 (Update is a raw map write): Update(key, value) leaves the registry,
hence the current value of every flag, unchanged; afterwards Get(key) is
value and Get of every other key is what it was; and when the path is not
empty and the save succeeds the file is the resulting values mapping. -/
theorem Update_raw_write (s : State) (key value : String) :
    (Update s key value).2.reg = s.reg ∧
    Get (Update s key value).2.c key = value ∧
    (∀ k2, k2 ≠ key → Get (Update s key value).2.c k2 = Get s.c k2) ∧
    (s.c.path ≠ "" → (Update s key value).1 = none →
      content (Update s key value).2.fs s.c.path = some (Update s key value).2.c.flags) := by
  have hflags : (Update s key value).2.c.flags = s.c.flags.set key value := by
    unfold Update
    by_cases hp : s.c.path = "" <;> simp [hp]
  refine ⟨?_, ?_, ?_, ?_⟩
  · unfold Update
    by_cases hp : s.c.path = "" <;> simp [hp]
  · simp [Get, hflags, Values.set]
  · intro k2 hk2
    simp [Get, hflags, Values.set, hk2]
  · intro hp hok
    rw [Update_ok s key value hp hok]
    exact content_written _ _ _

/-- C5 (filter exclusion) is broken by the code on two inputs. A store built
by NewConfig with the filtered name flag-test3 writes that key to the file on
a successful Update(flag-test3, x); and built over a file that already holds
the key, it writes the key back on its own Parse. The comment of NewConfig
says of the filtered flags that they are not to appear in the file. -/
theorem filtered_key_written :
    (NewConfig testReg emptyFS [] "test.config" ["flag-test3"]).map
        (fun r => (r.1, (Update r.2 "flag-test3" "x").1,
          fileHas (Update r.2 "flag-test3" "x").2.fs "test.config" "flag-test3"))
      = some (none, none, true) ∧
    (NewConfig testReg staleFS [] "test.config" ["flag-test3"]).map
        (fun r => (r.1, fileHas r.2.fs "test.config" "flag-test3"))
      = some (none, true) := by
  decide

/-- C6 (missing-file tolerance): for every non-empty path at which no file
exists and at which the save succeeds, Parse returns no error, leaves the
registry, hence every current value, as it was, and creates the file whose
content is exactly the mapping from each registered flag name that is not
filtered to the current value of the flag. -/
theorem missing_file_tolerance (s : State) (path : String) (hu : UniqueNames s.reg)
    (hp : path ≠ "") (hfile : s.fs.file path = File.absent)
    (hsave : s.fs.saveErr path = none) :
    (Parse s path).1 = none ∧
    (Parse s path).2.reg = s.reg ∧
    ∃ m, content (Parse s path).2.fs path = some m ∧
      ∀ k, m k = if k ∈ s.c.filter then none else valueOf s.reg k := by
  have hok : (Parse s path).1 = none := by
    rw [Parse_error, if_neg hp, hfile]
    exact hsave
  obtain ⟨_, _, hst⟩ := Parse_ok s path hp hok
  obtain ⟨hkept, hreg⟩ := reloaded_absent s path hfile
  refine ⟨hok, ?_, parsedFlags s path, ?_, ?_⟩
  · rw [hst]
    exact hreg
  · rw [hst]
    exact content_written _ _ _
  · intro k
    by_cases hk : k ∈ s.c.filter
    · rw [if_pos hk, parsedFlags_filtered s path hk, hkept]
      rfl
    · rw [if_neg hk]
      cases hl : Lookup s.reg k with
      | none =>
        rw [parsedFlags_unregistered s path hl, hkept]
        unfold valueOf
        rw [hl]
        rfl
      | some f => rw [parsedFlags_registered s path hu hl hk, hreg]

/-- Witness of missing_file_tolerance: the scenario of the package test, a
first Parse at test.config where no file exists. -/
theorem missing_file_tolerance_witness :
    (Parse freshState "test.config").1 = none ∧
    (Parse freshState "test.config").2.reg = freshState.reg ∧
    ∃ m, content (Parse freshState "test.config").2.fs "test.config" = some m ∧
      ∀ k, m k = if k ∈ freshState.c.filter then none else valueOf freshState.reg k :=
  missing_file_tolerance freshState "test.config" (by decide) (by decide) rfl rfl

/-- C7 (idempotence of Parse): if Parse(path) succeeds, a second Parse(path)
right after it succeeds too and leaves the whole state as the first call
left it: the file system, the registry and the store with its values map. -/
theorem Parse_idempotent (s : State) (path : String) (hu : UniqueNames s.reg)
    (hok : (Parse s path).1 = none) :
    Parse (Parse s path).2 path = (none, (Parse s path).2) := by
  by_cases hp : path = ""
  · subst hp
    rw [Parse_empty s, Parse_empty]
    rfl
  · obtain ⟨hsave, _, hst⟩ := Parse_ok s path hp hok
    rw [hst]
    generalize hs1 : (⟨⟨path, parsedFlags s path, s.c.filter⟩, reloadedReg s path,
      written s.fs path (parsedFlags s path)⟩ : State) = s1
    have hreg1 : s1.reg = reloadedReg s path := by rw [← hs1]
    have hfil1 : s1.c.filter = s.c.filter := by rw [← hs1]
    have hfs1 : s1.fs = written s.fs path (parsedFlags s path) := by rw [← hs1]
    have hfile1 : s1.fs.file path = File.json (parsedFlags s path) := by
      rw [hfs1]
      simp [written]
    have hprior : prior s1.fs path = parsedFlags s path := prior_json hp hfile1
    have hvis : ∀ k, isVisited s1.reg k = isVisited s.reg k := by
      intro k
      rw [hreg1]
      exact isVisited_applyValues _ _ _
    have hkept : ∀ k, kept s1 path k
        = if isVisited s.reg k then none else parsedFlags s path k := by
      intro k
      unfold kept
      rw [dropVisited_apply, hvis, hprior]
    have hreload : reloadedReg s1 path = reloadedReg s path := by
      unfold reloadedReg
      rw [hreg1]
      apply applyValues_fix
      intro g hg v hv
      rw [hkept] at hv
      by_cases hgv : isVisited s.reg g.name = true
      · simp [hgv] at hv
      · rw [if_neg hgv] at hv
        exact parsed_agree s path hu g hg v hv
    have hflags : parsedFlags s1 path = parsedFlags s path := by
      funext k
      have hk1 : parsedFlags s1 path k
          = collect s.c.filter (reloadedReg s path) (kept s1 path) k := by
        unfold parsedFlags
        rw [hreload, hfil1]
      rw [hk1]
      have hdrop : isVisited s.reg k = true → k ∈ s.c.filter ∨ Lookup (reloadedReg s path) k = none
          → kept s1 path k = parsedFlags s path k := by
        intro hv hor
        rw [hkept, if_pos hv]
        have hkn : kept s path k = none := by
          unfold kept
          rw [dropVisited_apply, if_pos hv]
        rcases hor with hk | hl
        · rw [parsedFlags_filtered s path hk, hkn]
        · have hl2 : Lookup s.reg k = none := by
            rw [reloaded_Lookup] at hl
            cases h : Lookup s.reg k with
            | none => rfl
            | some f => simp [h] at hl
          rw [parsedFlags_unregistered s path hl2, hkn]
      have hsame : k ∈ s.c.filter ∨ Lookup (reloadedReg s path) k = none
          → kept s1 path k = parsedFlags s path k := by
        intro hor
        by_cases hv : isVisited s.reg k = true
        · exact hdrop hv hor
        · rw [hkept, if_neg hv]
      by_cases hk : k ∈ s.c.filter
      · rw [collect_filtered _ _ _ _ hk]
        exact hsame (Or.inl hk)
      · cases hl : Lookup (reloadedReg s path) k with
        | none =>
          rw [collect_unregistered _ _ _ _ hl]
          exact hsame (Or.inr hl)
        | some g =>
          rw [collect_registered _ _ _ k g (reloaded_unique s path hu) hk hl]
          unfold parsedFlags
          rw [collect_registered _ _ _ k g (reloaded_unique s path hu) hk hl]
    have hsave1 : s1.fs.saveErr path = none := by
      rw [hfs1]
      exact hsave
    rw [Parse_json s1 path _ hp hfile1, saveFlags_path _ _ _ hp]
    have hcol : collect s1.c.filter (reloadedReg s1 path) (kept s1 path)
        = parsedFlags s path := hflags
    rw [hcol, hreload, Save_ok _ _ _ hsave1, hfs1, written_written, hfil1, ← hs1]

/-- Witness of Parse_idempotent on the scenario of the flag mode and the
file that maps it to slow. -/
theorem Parse_idempotent_witness :
    Parse (Parse modeState "app.json").2 "app.json" = (none, (Parse modeState "app.json").2) :=
  Parse_idempotent modeState "app.json" (by decide) (by decide)

/-- C8 (Parse fails exactly on persistence failures): Parse(path) returns an
error if and only if the path is not empty and either the load fails with an
error other than file-does-not-exist, or the load succeeds or reports a
missing file and the save that follows fails. In the first case the error
returned is the load error under the context failed to load the config file;
a file-does-not-exist load failure is never returned: Parse then returns
what the save returns. -/
theorem Parse_fails_iff (s : State) (path : String) :
    ((Parse s path).1 ≠ none ↔
      path ≠ "" ∧
        ((∃ e, (Load s.fs path Values.empty).2 = some e ∧ e.notExist = false) ∨
         ((∀ e, (Load s.fs path Values.empty).2 = some e → e.notExist = true) ∧
           (Save s.fs path (parsedFlags s path)).2 ≠ none))) ∧
    (∀ e, path ≠ "" → (Load s.fs path Values.empty).2 = some e → e.notExist = false →
      (Parse s path).1 = some ⟨"failed to load the config file: " ++ e.msg, false⟩) ∧
    (∀ e, path ≠ "" → (Load s.fs path Values.empty).2 = some e → e.notExist = true →
      (Parse s path).1 = (Save s.fs path (parsedFlags s path)).2) := by
  have hsv : (Save s.fs path (parsedFlags s path)).2 = s.fs.saveErr path := by
    unfold Save
    cases s.fs.saveErr path <;> rfl
  rw [hsv, Parse_error]
  by_cases hp : path = ""
  · simp [hp]
  · rw [if_neg hp]
    unfold Load
    cases hf : s.fs.file path with
    | absent => simp [hp]
    | json d => simp [hp]
    | unreadable left msg => simp [hp, Errorf]

/-- C9 (the file reflects the full resolved state): after a successful
Parse at a non-empty path the content of the file is the values map of the
store, and for every registered flag that is not in the filter set the
map, hence the file and Get, gives the current value of the flag. -/
theorem file_reflects_state (s : State) (path : String) (hu : UniqueNames s.reg)
    (hp : path ≠ "") (hok : (Parse s path).1 = none) :
    content (Parse s path).2.fs path = some (Parse s path).2.c.flags ∧
    ∀ f ∈ (Parse s path).2.reg, f.name ∉ (Parse s path).2.c.filter →
      (Parse s path).2.c.flags f.name = some f.value ∧
      Get (Parse s path).2.c f.name = f.value := by
  obtain ⟨_, _, hst⟩ := Parse_ok s path hp hok
  rw [hst]
  refine ⟨content_written _ _ _, ?_⟩
  intro f hf hk
  have hl := Lookup_of_mem (reloaded_unique s path hu) hf
  have hv : parsedFlags s path f.name = some f.value := by
    unfold parsedFlags
    exact collect_registered _ _ _ _ f (reloaded_unique s path hu) hk hl
  refine ⟨hv, ?_⟩
  simp [Get, hv]

/-- Witness of file_reflects_state: the first Parse of the package test,
which creates test.config with the entry of flag-test. -/
theorem file_reflects_state_witness :
    content (Parse freshState "test.config").2.fs "test.config"
      = some (Parse freshState "test.config").2.c.flags ∧
    ∀ f ∈ (Parse freshState "test.config").2.reg,
      f.name ∉ (Parse freshState "test.config").2.c.filter →
      (Parse freshState "test.config").2.c.flags f.name = some f.value ∧
      Get (Parse freshState "test.config").2.c f.name = f.value :=
  file_reflects_state freshState "test.config" (by decide) (by decide) (by decide)

/-- C10, as stated, fails: the file holds an entry legacy that names no
registered flag; after a successful Parse the values map still holds it. -/
theorem values_keys_counterexample :
    (Parse legacyState "app.json").1 = none ∧
    (Parse legacyState "app.json").2.c.flags "legacy" = some "1" ∧
    Lookup (Parse legacyState "app.json").2.reg "legacy" = none :=
  ⟨by decide, by decide, Option.isNone_iff_eq_none.mp (by decide)⟩

/-- C10, amended (values keys): after a Parse whose load did not fail with
an error other than file-does-not-exist, every key present in the values
map is the name of a registered flag or a key that the loaded file maps to
the same value; and every entry loaded from the file that names no
registered flag is kept in the values map. -/
theorem values_keys (s : State) (path : String)
    (hload : ∀ left msg, s.fs.file path = File.unreadable left msg → path = "") :
    (∀ k v, (Parse s path).2.c.flags k = some v →
      (Lookup (Parse s path).2.reg k).isSome = true ∨
      (path ≠ "" ∧ (content s.fs path).map (fun d => d k) = some (some v))) ∧
    (∀ k v d, path ≠ "" → content s.fs path = some d → d k = some v →
      Lookup s.reg k = none → (Parse s path).2.c.flags k = some v) := by
  obtain ⟨hc, hr⟩ := Parse_state s path hload
  have hprior : ∀ k v, prior s.fs path k = some v →
      path ≠ "" ∧ (content s.fs path).map (fun d => d k) = some (some v) := by
    intro k v h
    unfold prior at h
    by_cases hp : path = ""
    · rw [if_pos hp] at h
      cases h
    · rw [if_neg hp] at h
      refine ⟨hp, ?_⟩
      unfold content
      cases hf : s.fs.file path with
      | absent =>
        rw [hf] at h
        cases h
      | json d =>
        rw [hf] at h
        have h2 : d k = some v := h
        simp [h2]
      | unreadable left msg =>
        rw [hf] at h
        cases h
  rw [hc, hr]
  refine ⟨?_, ?_⟩
  · intro k v hv
    cases hl : Lookup s.reg k with
    | none =>
      right
      simp only at hv
      rw [parsedFlags_unregistered s path hl, kept_unregistered s path hl] at hv
      exact hprior k v hv
    | some f =>
      left
      rw [reloaded_Lookup, hl]
      rfl
  · intro k v d hp hd hk hl
    simp only
    rw [parsedFlags_unregistered s path hl, kept_unregistered s path hl]
    unfold content at hd
    cases hf : s.fs.file path with
    | absent => simp [hf] at hd
    | json d2 =>
      rw [hf] at hd
      have : d2 = d := Option.some.inj hd
      rw [prior_json hp hf, this, hk]
    | unreadable left msg => simp [hf] at hd

/-- Witness of values_keys on the scenario of the entry legacy. -/
theorem values_keys_witness :
    (∀ k v, (Parse legacyState "app.json").2.c.flags k = some v →
      (Lookup (Parse legacyState "app.json").2.reg k).isSome = true ∨
      ("app.json" ≠ "" ∧
        (content legacyState.fs "app.json").map (fun d => d k) = some (some v))) ∧
    (∀ k v d, "app.json" ≠ "" → content legacyState.fs "app.json" = some d → d k = some v →
      Lookup legacyState.reg k = none →
      (Parse legacyState "app.json").2.c.flags k = some v) :=
  values_keys legacyState "app.json" (fun left msg h => by
    have hf : legacyState.fs.file "app.json"
        = File.json ((Values.empty.set "mode" "slow").set "legacy" "1") := rfl
    rw [hf] at h
    cases h)

/-- C11 (forward compatibility of unknown keys): for every persisted file
with an entry u -> v where u names no registered flag, a successful Parse
leaves the registry exactly as the Parse of the same file without the entry
u leaves it, registers no flag u, and the file it writes maps u to v. -/
theorem unknown_key_kept (s : State) (path u v : String) (d : Values)
    (hp : path ≠ "") (hfile : s.fs.file path = File.json d) (hv : d u = some v)
    (hreg : Lookup s.reg u = none) (hok : (Parse s path).1 = none) :
    (Parse s path).2.reg = (Parse ⟨s.c, s.reg, written s.fs path (d.delete u)⟩ path).2.reg ∧
    Lookup (Parse s path).2.reg u = none ∧
    (content (Parse s path).2.fs path).map (fun m => m u) = some (some v) := by
  obtain ⟨_, _, hst⟩ := Parse_ok s path hp hok
  have hfile2 : (written s.fs path (d.delete u)).file path = File.json (d.delete u) := by
    simp [written]
  have hreg2 : (Parse ⟨s.c, s.reg, written s.fs path (d.delete u)⟩ path).2.reg
      = reloadedReg ⟨s.c, s.reg, written s.fs path (d.delete u)⟩ path := by
    apply (Parse_state _ path _).2
    intro left msg hf
    rw [hfile2] at hf
    cases hf
  rw [hreg2, hst]
  refine ⟨?_, ?_, ?_⟩
  · unfold reloadedReg kept
    apply applyValues_congr
    intro f hf
    have hne : f.name ≠ u := (Lookup_none_iff s.reg u).mp hreg f hf
    rw [dropVisited_apply, dropVisited_apply, prior_json hp hfile, prior_json hp hfile2]
    simp [Values.delete, hne]
  · show Lookup (reloadedReg s path) u = none
    rw [reloaded_Lookup, hreg]
    rfl
  · simp only [content_written, Option.map_some']
    rw [parsedFlags_unregistered s path hreg, kept_unregistered s path hreg,
      prior_json hp hfile, hv]

/-- Witness of unknown_key_kept: the entry legacy of app.json, which names
no flag. -/
theorem unknown_key_kept_witness :
    (Parse legacyState "app.json").2.reg
      = (Parse ⟨legacyState.c, legacyState.reg, written legacyState.fs "app.json"
          (((Values.empty.set "mode" "slow").set "legacy" "1").delete "legacy")⟩ "app.json").2.reg ∧
    Lookup (Parse legacyState "app.json").2.reg "legacy" = none ∧
    (content (Parse legacyState "app.json").2.fs "app.json").map (fun m => m "legacy")
      = some (some "1") :=
  unknown_key_kept legacyState "app.json" "legacy" "1"
    ((Values.empty.set "mode" "slow").set "legacy" "1") (by decide) rfl rfl rfl (by decide)

/-- C12 (filter-set invariant): the store returned by NewConfig with the
names N has the filter set made of config and of N, whether its initial
Parse returns an error or not; and after any sequence of Parse and Update
calls, failed or not, the filter set is still that set and contains
config. -/
theorem filter_set_invariant (reg : List Flag) (fs : FS) (args : List (String × String))
    (path : String) (N : List String) (r : Option Error × State)
    (hnew : NewConfig reg fs args path N = some r) :
    r.2.c.filter = {"config"} ∪ N.toFinset ∧
    ∀ ops, (runAll r.2 ops).c.filter = {"config"} ∪ N.toFinset ∧
      "config" ∈ (runAll r.2 ops).c.filter := by
  obtain ⟨reg2, p0, hr⟩ := NewConfig_some hnew
  have h0 : r.2.c.filter = {"config"} ∪ N.toFinset := by
    rw [hr, Parse_filter, newFilter_eq]
  refine ⟨h0, ?_⟩
  intro ops
  rw [runAll_filter, h0]
  exact ⟨rfl, Finset.mem_union_left _ (Finset.mem_singleton_self _)⟩

/-- Witness of filter_set_invariant: NewConfig over a file that cannot be
decoded returns an error and a store whose filter set is config and
flag-test3. -/
theorem filter_set_invariant_witness :
    brokenNew.1 ≠ none ∧
    (brokenNew.2.c.filter = {"config"} ∪ ["flag-test3"].toFinset ∧
      ∀ ops, (runAll brokenNew.2 ops).c.filter = {"config"} ∪ ["flag-test3"].toFinset ∧
        "config" ∈ (runAll brokenNew.2 ops).c.filter) :=
  ⟨by decide,
    filter_set_invariant testReg (brokenFS "app.json" "bad") [] "app.json" ["flag-test3"]
      brokenNew (NewConfig_defines (Option.isNone_iff_eq_none.mp (by decide)) rfl)⟩

/-- C13, as stated, fails on a typed flag: the boolean flag verbose was not
supplied and the file has the entry 1 for it; after a successful Parse its
value has changed from false to true, which is not the value of the entry. -/
theorem Parse_frame_counterexample :
    (Lookup verboseState.reg "verbose").map (fun f => (f.value, f.actual))
      = some ("false", false) ∧
    (content verboseState.fs "app.json").map (fun m => m "verbose") = some (some "1") ∧
    (Parse verboseState "app.json").1 = none ∧
    valueOf (Parse verboseState "app.json").2.reg "verbose" = some "true" := by
  decide

/-- C13, amended (frame of Parse on flags): after a successful Parse, a
registered flag that was explicitly supplied keeps its value, a registered
flag with no entry in the loaded file keeps its value, and a registered flag
that was not explicitly supplied and has an entry ends at what its setter
makes of the value of the entry, the value itself for a setter that stores
it as given; so a value differs from the one before only in that last
case. -/
theorem Parse_frame (s : State) (path k : String) (f : Flag) (hu : UniqueNames s.reg)
    (hk : Lookup s.reg k = some f) (hok : (Parse s path).1 = none) :
    (f.actual = true → valueOf (Parse s path).2.reg k = some f.value) ∧
    ((path = "" ∨ ∀ d, content s.fs path = some d → d k = none) →
      valueOf (Parse s path).2.reg k = some f.value) ∧
    (∀ d v, f.actual = false → path ≠ "" → content s.fs path = some d → d k = some v →
      valueOf (Parse s path).2.reg k = some (f.kind.set v) ∧
      (f.kind.set v = v → valueOf (Parse s path).2.reg k = some v)) ∧
    (valueOf (Parse s path).2.reg k ≠ some f.value →
      f.actual = false ∧ path ≠ "" ∧
      ∃ d v, content s.fs path = some d ∧ d k = some v ∧
        valueOf (Parse s path).2.reg k = some (f.kind.set v)) := by
  have hval : valueOf (Parse s path).2.reg k
      = some (if f.actual then f.value
          else ((prior s.fs path k).map f.kind.set).getD f.value) := by
    rw [(Parse_state s path (Parse_ok_loadable s path hok)).2]
    exact reloaded_value s path hu hk
  have hnone : (path = "" ∨ ∀ d, content s.fs path = some d → d k = none) →
      prior s.fs path k = none := by
    intro h
    by_cases hp : path = ""
    · rw [hp, prior_no_path]
      rfl
    · rw [prior_content _ _ _ hp]
      cases hc : content s.fs path with
      | none => rfl
      | some d =>
        rcases h with h | h
        · exact absurd h hp
        · exact h d hc
  have hsome : ∀ d v, f.actual = false → path ≠ "" → content s.fs path = some d →
      d k = some v → valueOf (Parse s path).2.reg k = some (f.kind.set v) := by
    intro d v ha hp hc hd
    rw [hval, ha, prior_content _ _ _ hp, hc]
    simp [hd]
  refine ⟨?_, ?_, ?_, ?_⟩
  · intro ha
    rw [hval, ha]
    rfl
  · intro h
    rw [hval, hnone h]
    cases f.actual <;> rfl
  · intro d v ha hp hc hd
    refine ⟨hsome d v ha hp hc hd, ?_⟩
    intro hs
    rw [hsome d v ha hp hc hd, hs]
  · intro hne
    cases ha : f.actual with
    | true =>
      rw [hval, ha] at hne
      exact absurd rfl hne
    | false =>
      by_cases hp : path = ""
      · rw [hval, hnone (Or.inl hp)] at hne
        simp at hne
      · refine ⟨rfl, hp, ?_⟩
        cases hc : content s.fs path with
        | none =>
          rw [hval, hnone (Or.inr (fun d hd => by rw [hc] at hd; cases hd))] at hne
          simp at hne
        | some d =>
          cases hd : d k with
          | none =>
            have hn : prior s.fs path k = none := by
              rw [prior_content _ _ _ hp, hc]
              exact hd
            rw [hval, hn] at hne
            simp at hne
          | some v => exact ⟨d, v, rfl, hd, hsome d v ha hp hc hd⟩

/-- Witness of Parse_frame at the string flag mode, not supplied, default
fast, which the file maps to slow. -/
theorem Parse_frame_witness :
    (false = true → valueOf (Parse frameState "app.json").2.reg "mode" = some "fast") ∧
    (("app.json" = "" ∨ ∀ d, content frameState.fs "app.json" = some d → d "mode" = none) →
      valueOf (Parse frameState "app.json").2.reg "mode" = some "fast") ∧
    (∀ d v, false = false → "app.json" ≠ "" → content frameState.fs "app.json" = some d →
      d "mode" = some v →
      valueOf (Parse frameState "app.json").2.reg "mode" = some v ∧
      (v = v → valueOf (Parse frameState "app.json").2.reg "mode" = some v)) ∧
    (valueOf (Parse frameState "app.json").2.reg "mode" ≠ some "fast" →
      false = false ∧ "app.json" ≠ "" ∧
      ∃ d v, content frameState.fs "app.json" = some d ∧ d "mode" = some v ∧
        valueOf (Parse frameState "app.json").2.reg "mode" = some v) :=
  Parse_frame frameState "app.json" "mode" (stringFlag "mode" "fast" false)
    (by decide) rfl (by decide)

/-- C14 (no persistence with an empty path): Parse with the empty path
returns no error, leaves the file system and the registry as they were,
reads no file (its result is the same over any file system), and leaves the
values map equal to the mapping from each registered flag name that is not
filtered to the current value of the flag; an Update that follows returns
no error and leaves the file system as it was. -/
theorem empty_path_no_persistence (s : State) (hu : UniqueNames s.reg) :
    (Parse s "").1 = none ∧
    (Parse s "").2.fs = s.fs ∧
    (Parse s "").2.reg = s.reg ∧
    (∀ fs2, (Parse ⟨s.c, s.reg, fs2⟩ "").2.c.flags = (Parse s "").2.c.flags ∧
      (Parse ⟨s.c, s.reg, fs2⟩ "").2.reg = (Parse s "").2.reg) ∧
    (∀ k, (Parse s "").2.c.flags k = if k ∈ s.c.filter then none else valueOf s.reg k) ∧
    ∀ k v, (Update (Parse s "").2 k v).1 = none ∧ (Update (Parse s "").2 k v).2.fs = s.fs := by
  obtain ⟨hkept, hreg⟩ := reloaded_empty s
  have hflags : ∀ t : State, parsedFlags t "" = collect t.c.filter t.reg Values.empty := by
    intro t
    unfold parsedFlags
    rw [(reloaded_empty t).1, (reloaded_empty t).2]
  refine ⟨?_, ?_, ?_, ?_, ?_, ?_⟩
  · rw [Parse_empty]
  · rw [Parse_empty]
  · rw [Parse_empty]
  · intro fs2
    rw [Parse_empty, Parse_empty]
    exact ⟨(hflags _).trans (hflags s).symm, rfl⟩
  · intro k
    rw [Parse_empty]
    show parsedFlags s "" k = _
    by_cases hk : k ∈ s.c.filter
    · rw [if_pos hk, parsedFlags_filtered s "" hk, hkept]
      rfl
    · rw [if_neg hk]
      cases hl : Lookup s.reg k with
      | none =>
        rw [parsedFlags_unregistered s "" hl, hkept]
        unfold valueOf
        rw [hl]
        rfl
      | some f => rw [parsedFlags_registered s "" hu hl hk, hreg]
  · intro k v
    rw [Parse_empty]
    simp [Update]

/-- Witness of empty_path_no_persistence on the registry of the package
test. -/
theorem empty_path_no_persistence_witness :
    (Parse freshState "").1 = none ∧
    (Parse freshState "").2.fs = freshState.fs ∧
    (Parse freshState "").2.reg = freshState.reg ∧
    (∀ fs2, (Parse ⟨freshState.c, freshState.reg, fs2⟩ "").2.c.flags
        = (Parse freshState "").2.c.flags ∧
      (Parse ⟨freshState.c, freshState.reg, fs2⟩ "").2.reg = (Parse freshState "").2.reg) ∧
    (∀ k, (Parse freshState "").2.c.flags k
      = if k ∈ freshState.c.filter then none else valueOf freshState.reg k) ∧
    ∀ k v, (Update (Parse freshState "").2 k v).1 = none ∧
      (Update (Parse freshState "").2 k v).2.fs = freshState.fs :=
  empty_path_no_persistence freshState (by decide)

/-- C15 (atomicity of a failed load): whenever the load of Parse(path)
fails with an error other than file-does-not-exist, Parse returns that
error under its context and leaves the registry, hence every current
value, and the file system exactly as they were. -/
theorem failed_load_atomic (s : State) (path : String) (e : Error) (hp : path ≠ "")
    (hl : (Load s.fs path Values.empty).2 = some e) (hne : e.notExist = false) :
    (Parse s path).1 = some (Errorf e) ∧
    (Parse s path).2.reg = s.reg ∧
    (Parse s path).2.fs = s.fs := by
  obtain ⟨left, hf, _, he⟩ := Load_other_error hl hne
  rw [Parse_unreadable s path left e.msg hp hf, ← he]
  exact ⟨rfl, rfl, rfl⟩

/-- Witness of failed_load_atomic: the file app.json cannot be decoded. -/
theorem failed_load_atomic_witness :
    (Parse brokenState "app.json").1 = some (Errorf ⟨"unexpected end of JSON input", false⟩) ∧
    (Parse brokenState "app.json").2.reg = brokenState.reg ∧
    (Parse brokenState "app.json").2.fs = brokenState.fs :=
  failed_load_atomic brokenState "app.json" ⟨"unexpected end of JSON input", false⟩
    (by decide) (by decide) rfl

/-- C16, as stated, fails on a typed flag: the boolean flag verbose is
filtered, was not supplied, and the file maps it to 1; after a successful
Parse the entry verbose -> 1 is kept in the map and in the file, but the
current value of the flag is true, not 1. -/
theorem filtered_entry_loaded_counterexample :
    "verbose" ∈ quietVerboseState.c.filter ∧
    (Lookup quietVerboseState.reg "verbose").map (fun f => f.actual) = some false ∧
    (content quietVerboseState.fs "app.json").map (fun m => m "verbose") = some (some "1") ∧
    (Parse quietVerboseState "app.json").1 = none ∧
    valueOf (Parse quietVerboseState "app.json").2.reg "verbose" = some "true" ∧
    (Parse quietVerboseState "app.json").2.c.flags "verbose" = some "1" := by
  decide

/-- C16, amended (the filter set restricts saving only, not loading): for
every registered flag F in the filter set that was not explicitly supplied
and that the persisted file maps to V, a successful Parse sets F, whose
current value is then what the setter of F makes of V (V itself for a
setter that stores it as given), keeps the entry F -> V in the values map,
and writes it back to the file: the file written is the values map, which
holds F -> V next to the current value of every flag that is not
filtered. -/
theorem filtered_entry_loaded (s : State) (path F V : String) (d : Values) (f : Flag)
    (hu : UniqueNames s.reg) (hp : path ≠ "")
    (hfile : s.fs.file path = File.json d) (hV : d F = some V)
    (hfil : F ∈ s.c.filter) (hF : Lookup s.reg F = some f) (hact : f.actual = false)
    (hok : (Parse s path).1 = none) :
    valueOf (Parse s path).2.reg F = some (f.kind.set V) ∧
    (f.kind.set V = V → valueOf (Parse s path).2.reg F = some V) ∧
    (Parse s path).2.c.flags F = some V ∧
    content (Parse s path).2.fs path = some (Parse s path).2.c.flags ∧
    (content (Parse s path).2.fs path).map (fun m => m F) = some (some V) ∧
    ∀ g ∈ (Parse s path).2.reg, g.name ∉ s.c.filter →
      (content (Parse s path).2.fs path).map (fun m => m g.name) = some (some g.value) := by
  obtain ⟨hval, hmap⟩ := Parse_applies_entry s path F V d f hu hp hfile hV hF hact hok
  rw [if_pos hfil] at hmap
  obtain ⟨_, _, hst⟩ := Parse_ok s path hp hok
  have hcont : content (Parse s path).2.fs path = some (Parse s path).2.c.flags := by
    rw [hst]
    exact content_written _ _ _
  refine ⟨hval, ?_, hmap, hcont, ?_, ?_⟩
  · intro hs
    rw [hval, hs]
  · rw [hcont, Option.map_some', hmap]
  · intro g hg hk
    rw [hcont, Option.map_some']
    rw [hst] at hg ⊢
    have hl := Lookup_of_mem (reloaded_unique s path hu) hg
    show some (parsedFlags s path g.name) = _
    unfold parsedFlags
    rw [collect_registered _ _ _ _ g (reloaded_unique s path hu) hk hl]

/-- Witness of filtered_entry_loaded: the filtered string flag token, not
supplied, takes the value old of the file, and the file written keeps the
entry next to the one of the flag mode. -/
theorem filtered_entry_loaded_witness :
    valueOf (Parse quietTokenState "app.json").2.reg "token" = some "old" ∧
    ("old" = "old" → valueOf (Parse quietTokenState "app.json").2.reg "token" = some "old") ∧
    (Parse quietTokenState "app.json").2.c.flags "token" = some "old" ∧
    content (Parse quietTokenState "app.json").2.fs "app.json"
      = some (Parse quietTokenState "app.json").2.c.flags ∧
    (content (Parse quietTokenState "app.json").2.fs "app.json").map (fun m => m "token")
      = some (some "old") ∧
    ∀ g ∈ (Parse quietTokenState "app.json").2.reg, g.name ∉ quietTokenState.c.filter →
      (content (Parse quietTokenState "app.json").2.fs "app.json").map (fun m => m g.name)
        = some (some g.value) :=
  filtered_entry_loaded quietTokenState "app.json" "token" "old"
    (Values.empty.set "token" "old") (stringFlag "token" "" false)
    (by decide) (by decide) rfl rfl (by decide) rfl rfl (by decide)

/-- C17 (a Parse that fails on load still resets the store): when the load
of Parse(path) fails with an error other than file-does-not-exist and
leaves the map empty, Parse returns the error, the path of the store is
path and its values map is empty, so Get returns the empty string for every
key whatever the store held before; and a successful Update(k, v) that
follows leaves at path the file with the single entry k -> v. -/
theorem failed_load_resets (s : State) (path : String) (e : Error) (hp : path ≠ "")
    (hl : (Load s.fs path Values.empty).2 = some e) (hne : e.notExist = false)
    (hleft : ∀ k, (Load s.fs path Values.empty).1 k = none) :
    (Parse s path).1 = some (Errorf e) ∧
    (Parse s path).2.c.path = path ∧
    (∀ k, (Parse s path).2.c.flags k = none) ∧
    (∀ k, Get (Parse s path).2.c k = "") ∧
    ∀ k v, (Update (Parse s path).2 k v).1 = none →
      ∃ m, content (Update (Parse s path).2 k v).2.fs path = some m ∧
        ∀ x, m x = if x = k then some v else none := by
  obtain ⟨left, hf, hleq, he⟩ := Load_other_error hl hne
  have hempty : ∀ k, left k = none := by
    intro k
    rw [← hleq]
    exact hleft k
  rw [Parse_unreadable s path left e.msg hp hf, ← he]
  refine ⟨rfl, rfl, hempty, ?_, ?_⟩
  · intro k
    simp [Get, hempty k]
  · intro k v hupd
    have hp2 : (⟨⟨path, left, s.c.filter⟩, s.reg, s.fs⟩ : State).c.path ≠ "" := hp
    rw [Update_ok _ k v hp2 hupd]
    refine ⟨left.set k v, content_written _ _ _, ?_⟩
    intro x
    simp [Values.set, hempty x]

/-- Witness of failed_load_resets: the store held mode -> slow from
old.json; after the failed Parse at app.json it holds nothing. -/
theorem failed_load_resets_witness :
    (Parse brokenState "app.json").1 = some (Errorf ⟨"unexpected end of JSON input", false⟩) ∧
    (Parse brokenState "app.json").2.c.path = "app.json" ∧
    (∀ k, (Parse brokenState "app.json").2.c.flags k = none) ∧
    (∀ k, Get (Parse brokenState "app.json").2.c k = "") ∧
    ∀ k v, (Update (Parse brokenState "app.json").2 k v).1 = none →
      ∃ m, content (Update (Parse brokenState "app.json").2 k v).2.fs "app.json" = some m ∧
        ∀ x, m x = if x = k then some v else none :=
  failed_load_resets brokenState "app.json" ⟨"unexpected end of JSON input", false⟩
    (by decide) rfl rfl (fun _ => rfl)

/-- C18 (an explicitly supplied filtered flag disappears from the store):
for every registered flag F in the filter set that was explicitly supplied,
after a successful Parse the values map has no entry for F, so Get(F) is the
empty string while the current value of the flag is the value supplied, and
the file written at a non-empty path has no entry for F, whatever the file
loaded held. -/
theorem explicit_filtered_dropped (s : State) (path F : String) (f : Flag)
    (hu : UniqueNames s.reg) (hfil : F ∈ s.c.filter)
    (hF : Lookup s.reg F = some f) (hact : f.actual = true)
    (hok : (Parse s path).1 = none) :
    (Parse s path).2.c.flags F = none ∧
    Get (Parse s path).2.c F = "" ∧
    valueOf (Parse s path).2.reg F = some f.value ∧
    (path ≠ "" → (content (Parse s path).2.fs path).map (fun m => m F) = some none) := by
  obtain ⟨hc, hr⟩ := Parse_state s path (Parse_ok_loadable s path hok)
  have hflag : parsedFlags s path F = none := by
    rw [parsedFlags_filtered s path hfil, kept_registered s path hu hF, hact]
    rfl
  refine ⟨?_, ?_, ?_, ?_⟩
  · rw [hc]
    exact hflag
  · rw [hc]
    simp [Get, hflag]
  · rw [hr, reloaded_value s path hu hF, hact]
    rfl
  · intro hp
    obtain ⟨_, _, hst⟩ := Parse_ok s path hp hok
    rw [hst]
    simp only [content_written, Option.map_some', hflag]

/-- Witness of explicit_filtered_dropped: the filtered flag token supplied
with new, over a file that maps it to old. -/
theorem explicit_filtered_dropped_witness :
    (Parse tokenState "app.json").2.c.flags "token" = none ∧
    Get (Parse tokenState "app.json").2.c "token" = "" ∧
    valueOf (Parse tokenState "app.json").2.reg "token" = some "new" ∧
    ("app.json" ≠ "" →
      (content (Parse tokenState "app.json").2.fs "app.json").map (fun m => m "token")
        = some none) :=
  explicit_filtered_dropped tokenState "app.json" "token" (stringFlag "token" "new" true)
    (by decide) (by decide) rfl rfl (by decide)

end Flagsconfig
